import Mathlib

/-!
Shallow embedding of the devscorer Contribution Complexity Evaluation Engine.

JavaScript numbers are modelled as rationals, JavaScript strings as lists of
characters (converted from Lean strings with String.data).  Each definition
mirrors one function of the TypeScript source; doc comments name the source
location.  External calls (the Anthropic API, the Claude Code agent) are
modelled by explicit parameters carrying the outcome of the call, with
Option used for calls that can fail.
-/

namespace Devscorer

/-! ### JavaScript numeric primitives -/

/-- Math.round: round half towards positive infinity. -/
def jsRound (q : ℚ) : ℤ := ⌊q + 1/2⌋

/-- Math.round(q * 100) / 100, the two-decimal rounding used on final scores. -/
def roundTwo (q : ℚ) : ℚ := (jsRound (q * 100) : ℚ) / 100

/-- Math.round(q * 10) / 10, the one-decimal rounding used on combined scores. -/
def roundOne (q : ℚ) : ℚ := (jsRound (q * 10) : ℚ) / 10

/-! ### JavaScript string primitives over character lists -/

/-- String.prototype.split applied with separator newline, keeping empty
segments (the accumulator holds the current segment reversed). -/
def splitLinesAux : List Char → List Char → List (List Char)
  | [], acc => [acc.reverse]
  | c :: cs, acc => if c = '\n' then acc.reverse :: splitLinesAux cs [] else splitLinesAux cs (c :: acc)

/-- Split a string into its newline-separated lines, as JavaScript split does. -/
def splitLines (s : List Char) : List (List Char) := splitLinesAux s []

/-- String.prototype.trim: strip whitespace from both ends. -/
def jsTrim (s : List Char) : List Char :=
  ((s.dropWhile Char.isWhitespace).reverse.dropWhile Char.isWhitespace).reverse

/-- Case-insensitive substring test (String.prototype.match with the i flag,
no g flag: at most one match is reported).  The needle is given lowercase. -/
def isInfixChars (needle : List Char) : List Char → Bool
  | [] => needle.isEmpty
  | c :: cs => needle.isPrefixOf (c :: cs) || isInfixChars needle cs

/-! ### The regular expressions of analyzeCodeComplexity

Only the constructs those sixteen literal patterns use are needed: literal
characters and the classes backslash-s, backslash-w and dot, each possibly
under a star or plus quantifier.  Matching follows the JavaScript engine:
leftmost match, greedy quantifiers with backtracking, and for the g flag a
scan that resumes right after each match. -/

inductive CharClass where
  | space
  | word
  | dot
deriving DecidableEq

/-- Character class membership: backslash-s, backslash-w (ASCII letters,
digits, underscore) and the dot (anything but a line terminator). -/
def classFn : CharClass → Char → Bool
  | .space => Char.isWhitespace
  | .word => fun c => c.isAlphanum || c = '_'
  | .dot => fun c => c != '\n' && c != '\r'

inductive PatAtom where
  | lit (c : Char)
  | one (cc : CharClass)
  | star (cc : CharClass)
  | plus (cc : CharClass)
deriving DecidableEq

/-- Length of the maximal prefix of characters satisfying p. -/
def runLen (p : Char → Bool) : List Char → ℕ
  | [] => 0
  | c :: cs => if p c then runLen p cs + 1 else 0

/-- Try repetition counts k, k-1, ..., 0 and keep the first success
(greedy backtracking for a star quantifier). -/
def firstSomeDesc (f : ℕ → Option ℕ) : ℕ → Option ℕ
  | 0 => f 0
  | k + 1 => (f (k + 1)).orElse (fun _ => firstSomeDesc f k)

/-- Try repetition counts k, k-1, ..., 1 and keep the first success
(greedy backtracking for a plus quantifier). -/
def firstSomeDescPos (f : ℕ → Option ℕ) : ℕ → Option ℕ
  | 0 => none
  | k + 1 => (f (k + 1)).orElse (fun _ => firstSomeDescPos f k)

/-- Match a sequence of atoms at the start of the input, returning the
length of the (greedily) matched prefix. -/
def matchAtoms : List PatAtom → List Char → Option ℕ
  | [], _ => some 0
  | .lit _ :: _, [] => none
  | .lit c :: rest, d :: ds => if d = c then (matchAtoms rest ds).map (· + 1) else none
  | .one _ :: _, [] => none
  | .one cc :: rest, d :: ds =>
      if classFn cc d then (matchAtoms rest ds).map (· + 1) else none
  | .star cc :: rest, ds =>
      firstSomeDesc (fun k => (matchAtoms rest (ds.drop k)).map (· + k)) (runLen (classFn cc) ds)
  | .plus cc :: rest, ds =>
      firstSomeDescPos (fun k => (matchAtoms rest (ds.drop k)).map (· + k)) (runLen (classFn cc) ds)

/-- Number of matches a g-flagged regex reports: scan left to right, and
after each match resume right after it (a length-zero match consumes one
character, as the JavaScript engine advances lastIndex to avoid stalling). -/
def countMatchesAux (atoms : List PatAtom) : List Char → ℕ
  | [] => match matchAtoms atoms [] with
          | some _ => 1
          | none => 0
  | d :: ds =>
    match matchAtoms atoms (d :: ds) with
    | some l => 1 + countMatchesAux atoms (ds.drop (l - 1))
    | none => countMatchesAux atoms ds
termination_by cs => cs.length
decreasing_by
  · simp only [List.length_cons, List.length_drop]
    omega
  · simp

/-- Atoms for a literal string. -/
def lits (s : String) : List PatAtom := s.data.map PatAtom.lit

/-- A pattern of the complexPatterns table: either a g-flagged regex or the
single case-insensitive non-global literal. -/
inductive PatSpec where
  | global (atoms : List PatAtom)
  | icase (needle : List Char)

/-- matches.length for one pattern applied to one line. -/
def patCount : PatSpec → List Char → ℕ
  | .global atoms, line => countMatchesAux atoms line
  | .icase needle, line => if isInfixChars needle (line.map Char.toLower) then 1 else 0

/-! ### ScoringEngine (src/core/scoring-engine.ts) -/

inductive HintType where
  | general
  | specific
  | technical
deriving DecidableEq

/-- Hint of types/index.ts: content, level and type.  Levels produced by the
code are positive integers, hence a natural number here. -/
structure Hint where
  content : String
  level : ℕ
  type : HintType
deriving DecidableEq

/-- GitCommit of types/index.ts (the Date field is never consulted by the
embedded operations and is omitted). -/
structure GitCommit where
  hash : String
  message : String
  author : String
  diff : String

/-- GitContribution of types/index.ts (again without the Date field). -/
structure GitContribution where
  branch : String
  author : String
  commits : List GitCommit
  diff : String
  linesChanged : ℕ
  projectContext : String
  commitHash : String
  preCommitHash : String

/-- The complexPatterns table of ScoringEngine.analyzeCodeComplexity, in
source order with the source weights. -/
def complexPatterns : List (PatSpec × ℚ) :=
  [ (.global (lits ("class") ++ [.plus .space, .plus .word]), 3),
    (.global (lits ("interface") ++ [.plus .space, .plus .word]), 2),
    (.global (lits ("function") ++ [.plus .space, .plus .word]), 2),
    (.global (lits ("async") ++ [.plus .space] ++ lits ("function")), 3),
    (.global (lits ("Promise") ++ [.star .space, .lit '<']), 2),
    (.global (lits ("catch") ++ [.star .space, .lit '(']), 2),
    (.global (lits ("throw") ++ [.plus .space]), 2),
    (.global (lits ("for") ++ [.star .space, .lit '(']), 1),
    (.global (lits ("while") ++ [.star .space, .lit '(']), 1),
    (.global (lits ("if") ++ [.star .space, .lit '(']), 1/2),
    (.global (lits ("switch") ++ [.star .space, .lit '(']), 2),
    (.icase ("regex").data, 2),
    (.global ([.lit '.'] ++ lits ("map") ++ [.star .space, .lit '(']), 1),
    (.global ([.lit '.'] ++ lits ("filter") ++ [.star .space, .lit '(']), 1),
    (.global ([.lit '.'] ++ lits ("reduce") ++ [.star .space, .lit '(']), 2),
    (.global (lits ("import") ++ [.plus .space, .star .dot] ++ lits ("from")), 1/2) ]

/-- Weighted pattern count of one added line (the inner loop of
analyzeCodeComplexity). -/
def lineComplexity (codeLine : List Char) : ℚ :=
  complexPatterns.foldl (fun acc pw => acc + (patCount pw.1 codeLine : ℚ) * pw.2) 0

/-- Accumulated weighted pattern counts over the added lines of the diff
(the line loop of analyzeCodeComplexity: lines starting with a plus sign
but not with three of them, with the sign stripped). -/
def addedLinesComplexity (diff : String) : ℚ :=
  (splitLines diff.data).foldl
    (fun acc line =>
      if (['+']).isPrefixOf line && !(['+', '+', '+']).isPrefixOf line then
        acc + lineComplexity (line.drop 1)
      else acc) 0

/-- ScoringEngine.analyzeCodeComplexity: weighted construct counts over the
added lines of the diff, scaled by 0.1 and capped at 15. -/
def analyzeCodeComplexity (diff : String) : ℚ :=
  min (addedLinesComplexity diff * (1/10)) 15

/-- Tail after the last occurrence of the separator space-b-slash that
leaves a nonempty tail (the backtracking of the greedy first capture group
of the diff-git regex). -/
def bTailAny : List Char → Option (List Char)
  | [] => none
  | c :: cs =>
    match bTailAny cs with
    | some t => some t
    | none =>
      if ([' ', 'b', '/']).isPrefixOf (c :: cs) && !(cs.drop 2).isEmpty then some (cs.drop 2)
      else none

/-- Valid split of the text following the literal diff-git-a-slash: the
first capture group must be nonempty, so the separator may not sit at
position zero. -/
def validBSplit : List Char → Option (List Char)
  | [] => none
  | _ :: cs => bTailAny cs

/-- Leftmost match of the regex diff --git a\/(.+) b\/(.+), returning the
second capture group (everything after the last viable space-b-slash). -/
def gitDiffFile : List Char → Option (List Char)
  | [] => none
  | c :: cs =>
    if ("diff --git a/").data.isPrefixOf (c :: cs) then
      match validBSplit ((c :: cs).drop 13) with
      | some t => some t
      | none => gitDiffFile cs
    else gitDiffFile cs

/-- ScoringEngine.countModifiedFiles: collect the second capture of each
diff --git line into a set and return its size. -/
def countModifiedFiles (diff : String) : ℕ :=
  ((splitLines diff.data).foldl
    (fun acc line =>
      if ("diff --git").data.isPrefixOf line then
        match gitDiffFile line with
        | some f => if acc.contains f then acc else acc ++ [f]
        | none => acc
      else acc) []).length

/-- ScoringEngine.calculateBaseComplexity: capped contributions of lines
changed, files modified, commit count and code complexity, capped at 30. -/
def calculateBaseComplexity (c : GitContribution) : ℚ :=
  min
    (min ((c.linesChanged : ℚ) * (1/10)) 20
      + min ((countModifiedFiles c.diff : ℚ) * 2) 15
      + min ((c.commits.length : ℚ) * (3/2)) 10
      + analyzeCodeComplexity c.diff)
    30

/-- Category weight of the switch in ScoringEngine.calculateHintComplexity. -/
def hintTypeWeight : HintType → ℚ
  | .general => 5
  | .specific => 10
  | .technical => 15

/-- ScoringEngine.calculateHintComplexity: category weight plus twice the
level, summed over the hints, capped at 50. -/
def calculateHintComplexity (hints : List Hint) : ℚ :=
  min (hints.foldl (fun acc h => acc + hintTypeWeight h.type + (h.level : ℚ) * 2) 0) 50

/-- ScoringEngine.calculateAttemptPenalty. -/
def calculateAttemptPenalty (attempts : ℕ) (aiMatched : Bool) : ℚ :=
  if aiMatched = false then 20
  else if attempts ≤ 1 then -10
  else if attempts ≤ 3 then 0
  else if attempts ≤ 5 then 5
  else 10

/-- ScoringEngine.calculateDifficultyBonus. -/
def calculateDifficultyBonus (hintsNeeded attempts : ℕ) (aiMatched : Bool) : ℚ :=
  if aiMatched = false then 15
  else
    min ((hintsNeeded : ℚ) * 3) 20
      + (if 5 < attempts then 5 else 0)
      + (if 7 < hintsNeeded then 10 else 0)

/-- ScoringEngine.calculateComplexityScore: sum of the four components,
clamped to the range 0 to 100, rounded to two decimals. -/
def calculateComplexityScore (c : GitContribution) (hintsNeeded : ℕ) (hints : List Hint)
    (attempts : ℕ) (functionalityMatched : Bool) : ℚ :=
  roundTwo (max 0 (min 100
    (calculateBaseComplexity c + calculateHintComplexity hints
      + calculateAttemptPenalty attempts functionalityMatched
      + calculateDifficultyBonus hintsNeeded attempts functionalityMatched)))

/-- Scoring one loop outcome, in the shape every call site uses: the
hintsNeeded argument is the length of the hint list. -/
def scoreOutcome (c : GitContribution) (hints : List Hint) (attempts : ℕ)
    (matched : Bool) : ℚ :=
  calculateComplexityScore c hints.length hints attempts matched

/-! ### CodeComparator (src/core/code-comparator.ts) -/

/-- FunctionalityComparison of types/index.ts. -/
structure FunctionalityComparison where
  isEquivalent : Bool
  similarityScore : ℚ
  gaps : List String
  differences : List String
deriving DecidableEq

inductive SuperiorTag where
  | A
  | B
  | NEITHER
deriving DecidableEq

/-- TechnicalComparison of types/index.ts. -/
structure TechnicalComparison where
  factorsThatMakeABetter : List String
  factorsThatMakeBBetter : List String
  isEquivalent : Bool
  superiorContribution : SuperiorTag
  similarityScore : ℚ
deriving DecidableEq

/-- Result of the JavaScript parseFloat: a finite value or an infinity;
none models NaN. -/
inductive JsNum where
  | val (q : ℚ)
  | posInf
  | negInf
deriving DecidableEq

/-- Numeric value of a digit list read in base ten. -/
def digitsVal (ds : List Char) : ℕ :=
  ds.foldl (fun acc d => acc * 10 + (d.toNat - ('0').toNat)) 0

/-- Exponent part of a parseFloat literal: an e or E followed by an optional
sign and digits; ignored when no digits follow. -/
def jsParseExponent : List Char → ℤ
  | e :: r =>
    if e = 'e' ∨ e = 'E' then
      match r with
      | '-' :: ds =>
        if (ds.takeWhile Char.isDigit).isEmpty then 0
        else -(digitsVal (ds.takeWhile Char.isDigit) : ℤ)
      | '+' :: ds =>
        if (ds.takeWhile Char.isDigit).isEmpty then 0
        else (digitsVal (ds.takeWhile Char.isDigit) : ℤ)
      | ds =>
        if (ds.takeWhile Char.isDigit).isEmpty then 0
        else (digitsVal (ds.takeWhile Char.isDigit) : ℤ)
    else 0
  | [] => 0

/-- The JavaScript parseFloat: skip leading whitespace, optional sign, then
either the Infinity literal or a decimal mantissa with optional exponent;
NaN (none) when no digits are found. -/
def jsParseFloat (s : List Char) : Option JsNum :=
  let l0 := s.dropWhile Char.isWhitespace
  let neg := match l0 with
    | '-' :: _ => true
    | _ => false
  let l := match l0 with
    | '-' :: r => r
    | '+' :: r => r
    | _ => l0
  if ("Infinity").data.isPrefixOf l then some (if neg then .negInf else .posInf)
  else
    let intPart := l.takeWhile Char.isDigit
    let l1 := l.dropWhile Char.isDigit
    let fracPart := match l1 with
      | '.' :: r => r.takeWhile Char.isDigit
      | _ => []
    let l2 := match l1 with
      | '.' :: r => r.dropWhile Char.isDigit
      | _ => l1
    if intPart.isEmpty && fracPart.isEmpty then none
    else
      let mant : ℚ := (digitsVal (intPart ++ fracPart) : ℚ) / ((10 : ℚ) ^ fracPart.length)
      some (.val ((if neg then -mant else mant) * (10 : ℚ) ^ jsParseExponent l2))

/-- The guard on a parsed similarity score in parseComparisonResult: keep it
only when parseFloat produced a number (not NaN) lying between 0 and 1.
Infinities fail the upper or lower bound exactly as in JavaScript. -/
def parsedScoreInRange (scoreText : List Char) : Option ℚ :=
  match jsParseFloat scoreText with
  | some (.val q) => if 0 ≤ q ∧ q ≤ 1 then some q else none
  | _ => none

/-- Mutable locals of the line loop in parseComparisonResult. -/
structure ParseState where
  isEquivalent : Bool
  similarityScore : ℚ
  gaps : List String
  differences : List String
  currentSection : String

/-- One iteration of the line loop of parseComparisonResult.  The source
strips a recognized tag with String.replace of its first occurrence; under
the startsWith guard that equals dropping the tag length. -/
def parseLine (st : ParseState) (line : List Char) : ParseState :=
  if ("EQUIVALENT:").data.isPrefixOf line then
    let equivalentText := (jsTrim (line.drop (("EQUIVALENT:").data.length))).map Char.toLower
    { st with isEquivalent := equivalentText == ("true").data }
  else if ("SIMILARITY_SCORE:").data.isPrefixOf line then
    match parsedScoreInRange (jsTrim (line.drop (("SIMILARITY_SCORE:").data.length))) with
    | some q => { st with similarityScore := q }
    | none => st
  else if ("GAPS:").data.isPrefixOf line then
    { st with currentSection := ("gaps") }
  else if ("DIFFERENCES:").data.isPrefixOf line then
    { st with currentSection := ("differences") }
  else if ("- ").data.isPrefixOf line && st.currentSection == ("gaps") then
    let gap := jsTrim (line.drop 2)
    if gap.isEmpty then st else { st with gaps := st.gaps ++ [gap.asString] }
  else if ("- ").data.isPrefixOf line && st.currentSection == ("differences") then
    let difference := jsTrim (line.drop 2)
    if difference.isEmpty then st else { st with differences := st.differences ++ [difference.asString] }
  else st

/-- CodeComparator.parseComparisonResult: split into trimmed lines, fold the
line loop from the defaults (not equivalent, score one half, empty lists,
empty section), and package the verdict. -/
def parseComparisonResult (analysisText : String) : FunctionalityComparison :=
  let lines := (splitLines analysisText.data).map jsTrim
  let st := lines.foldl parseLine ⟨false, 1/2, [], [], ("")⟩
  ⟨st.isEquivalent, st.similarityScore, st.gaps, st.differences⟩

/-- CodeComparator.createFallbackComparison: the conservative verdict used
when the oracle call fails. -/
def createFallbackComparison : FunctionalityComparison :=
  ⟨false, 3/10,
    [("Unable to perform detailed comparison due to API error")],
    [("Comparison analysis failed")]⟩

/-- CodeComparator.compareFunctionality with the oracle call made explicit:
some text is the model reply fed to parseComparisonResult, none is a failed
call, handled by the catch branch returning the fallback verdict. -/
def compareFunctionality (oracleReply : Option String) : FunctionalityComparison :=
  match oracleReply with
  | some analysisText => parseComparisonResult analysisText
  | none => createFallbackComparison

/-- Hint type assigned from the level, shared by parseHint and the fallback
hint builders: general up to 3, specific up to 6, technical beyond. -/
def hintTypeForLevel (hintLevel : ℕ) : HintType :=
  if hintLevel ≤ 3 then .general
  else if hintLevel ≤ 6 then .specific
  else .technical

/-- CodeComparator.parseHint: trim the reply, keep the given level, derive
the type from the level. -/
def parseHint (hintText : String) (hintLevel : ℕ) : Hint :=
  ⟨(jsTrim hintText.data).asString, hintLevel, hintTypeForLevel hintLevel⟩

/-- CodeComparator.createFallbackTechnicalHint: a templated hint from the
first technical factor, same level and type derivation as parseHint. -/
def createFallbackTechnicalHint (technicalFactors : List String) (hintLevel : ℕ) : Hint :=
  let hintContent :=
    match technicalFactors with
    | [] => ("Consider reviewing the technical requirements more carefully")
    | primaryFactor :: _ =>
      if hintLevel ≤ 3 then
        ("As a Senior Staff Engineer, consider the architectural implications of: ") ++ primaryFactor
      else if hintLevel ≤ 6 then
        ("You need to implement better technical practices for: ") ++ primaryFactor
      else
        ("Specifically address this technical improvement: ") ++ primaryFactor
  ⟨hintContent, hintLevel, hintTypeForLevel hintLevel⟩

/-- CodeComparator.generateTechnicalHint with the API call made explicit:
null when there is no technical factor at all, otherwise the parsed reply,
or the fallback hint when the call failed (none). -/
def generateTechnicalHint (technicalFactors : List String) (hintLevel : ℕ)
    (apiResponse : Option String) : Option Hint :=
  if technicalFactors.isEmpty then none
  else some (match apiResponse with
    | some text => parseHint text hintLevel
    | none => createFallbackTechnicalHint technicalFactors hintLevel)

/-! ### Configuration defaults (src/utils/config.ts) -/

/-- MAX_HINTS_PER_ANALYSIS default. -/
def defaultMaxHintsPerAnalysis : ℕ := 10

/-- SIMILARITY_THRESHOLD default, 0.85. -/
def defaultSimilarityThreshold : ℚ := 17/20

/-! ### The convergence loop of GitContributionScorer.analyzeContribution
(src/index.ts)

One round of the while loop performs three external calls: the Claude Code
run, the technical comparison and, on a miss, the hint generation.  A
RoundInput records their outcomes for one round: raised models an exception
escaping any of the awaited calls (the catch branch breaks the loop),
aiSuccess is the success flag of the Claude Code result, comparison is what
compareTechnicalContributions returned (that call catches internally and
falls back, so it always yields a verdict), and hintResponse is the raw
hint-generation reply (none when that API call failed, which
generateTechnicalHint turns into its fallback hint). -/

structure RoundInput where
  raised : Bool
  aiSuccess : Bool
  comparison : TechnicalComparison
  hintResponse : Option String

/-- Mutable locals of the while loop in analyzeContribution. -/
structure LoopState where
  functionalityMatched : Bool
  hintsGiven : List Hint
  attempts : ℕ
deriving DecidableEq

def initialLoopState : LoopState := ⟨false, [], 0⟩

/-- One iteration body of the while loop in analyzeContribution.  Returns
the state after the round and whether control reaches the next condition
check (false models a break). -/
def loopBody (similarityThreshold : ℚ) (inp : RoundInput) (st : LoopState) :
    LoopState × Bool :=
  let st1 : LoopState := { st with attempts := st.attempts + 1 }
  if inp.raised then (st1, false)
  else if inp.aiSuccess = false then (st1, false)
  else if inp.comparison.isEquivalent = true
      ∨ similarityThreshold ≤ inp.comparison.similarityScore then
    ({ st1 with functionalityMatched := true }, true)
  else
    match generateTechnicalHint inp.comparison.factorsThatMakeABetter
        (st1.hintsGiven.length + 1) inp.hintResponse with
    | none => (st1, false)
    | some nextHint => ({ st1 with hintsGiven := st1.hintsGiven ++ [nextHint] }, true)

/-- Fueled unfolding of the while loop: stop when functionalityMatched or
attempts has reached maxAttempts, else run one round on the input of the
current attempt index.  The attempt counter grows by one on every round, so
fuel maxAttempts from the initial state never cuts the loop short. -/
def loopGo (similarityThreshold : ℚ) (maxAttempts : ℕ) (env : ℕ → RoundInput) :
    ℕ → LoopState → LoopState
  | 0, st => st
  | fuel + 1, st =>
    if st.functionalityMatched = true ∨ maxAttempts ≤ st.attempts then st
    else
      let r := loopBody similarityThreshold (env st.attempts) st
      if r.2 then loopGo similarityThreshold maxAttempts env fuel r.1 else r.1

/-- The whole while loop of analyzeContribution, from the initial state. -/
def analyzeLoop (similarityThreshold : ℚ) (maxAttempts : ℕ)
    (env : ℕ → RoundInput) : LoopState :=
  loopGo similarityThreshold maxAttempts env maxAttempts initialLoopState

/-! ### DeveloperAnalyzer.calculateCombinedScore (src/core/developer-analyzer.ts) -/

/-- Activity counters of DeveloperDiscovery consulted by
calculateCombinedScore. -/
structure DeveloperDiscovery where
  totalCommits : ℕ
  totalIssues : ℕ
  totalPullRequests : ℕ
  totalReviews : ℕ
  totalComments : ℕ

/-- Summary attached to a technical analysis result. -/
structure TechnicalSummary where
  averageScore : ℚ

/-- The technical analysis object: its summary may itself be absent. -/
structure TechnicalAnalysis where
  summary : Option TechnicalSummary

/-- One developer analysis row of a GitHubReport. -/
structure SocialDevAnalysis where
  communication : ℚ
  collaboration : ℚ
  technicalQuality : ℚ
  delivery : ℚ
  overallScore : ℚ

/-- GitHubReport as consulted by calculateCombinedScore. -/
structure GitHubReport where
  developerAnalyses : List SocialDevAnalysis

structure TechScore where
  codeComplexity : ℚ
  implementationQuality : ℚ
  problemSolving : ℚ
  overall : ℚ
deriving DecidableEq

structure SocialScore where
  communication : ℚ
  collaboration : ℚ
  leadership : ℚ
  delivery : ℚ
  overall : ℚ
deriving DecidableEq

structure CombinedBreakdown where
  technicalWeight : ℚ
  socialWeight : ℚ
deriving DecidableEq

structure CombinedScore where
  score : ℚ
  confidence : ℚ
  breakdown : CombinedBreakdown
deriving DecidableEq

structure DeveloperScore where
  technical : TechScore
  social : SocialScore
  combined : CombinedScore
deriving DecidableEq

/-- Social activity count used for the hasSocialData test and the weight
derivation. -/
def socialActivityOf (d : DeveloperDiscovery) : ℕ :=
  d.totalIssues + d.totalPullRequests + d.totalReviews + d.totalComments

/-- Weight derivation of calculateCombinedScore: defaults one half each;
all weight on the present dimension when only one has data; with both, the
commit share of total activity clamped between 0.2 and 0.8, the social
weight being its complement. -/
def combinedWeights (hasCodeData hasSocialData : Bool) (d : DeveloperDiscovery) : ℚ × ℚ :=
  if hasCodeData = true ∧ hasSocialData = false then (1, 0)
  else if hasCodeData = false ∧ hasSocialData = true then (0, 1)
  else if hasCodeData = true ∧ hasSocialData = true then
    let codeActivity : ℚ := (d.totalCommits : ℚ)
    let socialActivity : ℚ := (socialActivityOf d : ℚ)
    let total := codeActivity + socialActivity
    if 0 < total then
      let technicalWeight := max (1/5) (min (4/5) (codeActivity / total))
      (technicalWeight, 1 - technicalWeight)
    else (1/2, 1/2)
  else (1/2, 1/2)

/-- DeveloperAnalyzer.calculateCombinedScore: extract the dimension scores
(zero defaults when absent), derive confidence from which dimensions carry
data, derive the weights, and combine. -/
def calculateCombinedScore (technicalAnalysis : Option TechnicalAnalysis)
    (socialAnalysis : Option GitHubReport) (d : DeveloperDiscovery) : DeveloperScore :=
  let technicalScore : TechScore :=
    match technicalAnalysis with
    | some ta =>
      match ta.summary with
      | some s =>
        let normalizedScore := min (s.averageScore / 10) 10
        ⟨normalizedScore, normalizedScore, normalizedScore, normalizedScore⟩
      | none => ⟨0, 0, 0, 0⟩
    | none => ⟨0, 0, 0, 0⟩
  let socialScore : SocialScore :=
    match socialAnalysis with
    | some rep =>
      match rep.developerAnalyses with
      | a :: _ =>
        ⟨a.communication, a.collaboration, (a.technicalQuality + a.delivery) / 2,
          a.delivery, a.overallScore⟩
      | [] => ⟨0, 0, 0, 0, 0⟩
    | none => ⟨0, 0, 0, 0, 0⟩
  let hasCodeData := technicalAnalysis.isSome && decide (0 < d.totalCommits)
  let hasSocialData := socialAnalysis.isSome && decide (0 < socialActivityOf d)
  let confidence : ℚ :=
    if hasCodeData = true ∧ hasSocialData = true then 9/10
    else if hasCodeData = true ∨ hasSocialData = true then 6/10
    else 1/10
  let w := combinedWeights hasCodeData hasSocialData d
  let combinedScoreValue := technicalScore.overall * w.1 + socialScore.overall * w.2
  ⟨technicalScore, socialScore,
    ⟨roundOne combinedScoreValue, confidence, ⟨roundTwo w.1, roundTwo w.2⟩⟩⟩

/-! ### Concrete inputs used to evaluate the definitions -/

/-- A contribution with fifty changed lines and an empty diff: its base
complexity evaluates to exactly five. -/
def contribFifty : GitContribution :=
  ⟨("feature-x"), ("dev"), [], (""), 50, (""), ("abc"), ("abb")⟩

/-- One level-five technical hint. -/
def techFiveHint : Hint := ⟨("h"), 5, .technical⟩

/-- Ten level-five technical hints. -/
def tenTechnicalHints : List Hint :=
  [techFiveHint, techFiveHint, techFiveHint, techFiveHint, techFiveHint,
   techFiveHint, techFiveHint, techFiveHint, techFiveHint, techFiveHint]

/-- Round inputs for a run in which every attempt succeeds to produce code
that never matches, with a nonempty list of factors favouring the human
diff; the hint-generation reply is an empty string. -/
def envAllMiss : ℕ → RoundInput :=
  fun _ => ⟨false, true, ⟨[("better error handling")], [], false, .NEITHER, 3/10⟩, some ("")⟩

/-- Round inputs for a run whose first comparison is judged equivalent. -/
def envMatch : ℕ → RoundInput :=
  fun _ => ⟨false, true, ⟨[], [], true, .NEITHER, 1⟩, none⟩

/-- Round inputs for a run whose first comparison misses but reports no
factor that makes the human reference better. -/
def envSuperior : ℕ → RoundInput :=
  fun _ => ⟨false, true, ⟨[], [], false, .NEITHER, 3/10⟩, none⟩

/-- Discovery counters with ten code activities and ninety social ones. -/
def discoveryTenNinety : DeveloperDiscovery := ⟨10, 90, 0, 0, 0⟩

/-- Discovery counters with no activity at all. -/
def discoveryEmpty : DeveloperDiscovery := ⟨0, 0, 0, 0, 0⟩

/-- Discovery counters with only code activity. -/
def discoveryCodeOnly : DeveloperDiscovery := ⟨3, 0, 0, 0, 0⟩

/-- A technical analysis carrying an average score of fifty. -/
def techFifty : TechnicalAnalysis := ⟨some ⟨50⟩⟩

/-- A social report with one developer row. -/
def socialOne : GitHubReport := ⟨[⟨5, 5, 5, 5, 5⟩]⟩

/-- A line carries a similarity score when it starts with the score tag and
the remainder parses to a number the guard accepts. -/
def scoreCarrier (l : List Char) : Bool :=
  ("SIMILARITY_SCORE:").data.isPrefixOf l
    && (parsedScoreInRange (jsTrim (l.drop (("SIMILARITY_SCORE:").data.length)))).isSome

/-- A line asserts equivalence when it starts with the equivalent tag and
the remainder, trimmed and lowercased, is the word true. -/
def equivTrueLine (l : List Char) : Bool :=
  ("EQUIVALENT:").data.isPrefixOf l
    && ((jsTrim (l.drop (("EQUIVALENT:").data.length))).map Char.toLower == ("true").data)

/-- Rationals that are integer multiples of one twentieth; every base
complexity is one, which makes the two-decimal rounding the identity. -/
def IsTwentieth (q : ℚ) : Prop := ∃ n : ℤ, q * 20 = (n : ℚ)

/-! ### Theorems -/

theorem isTwentieth_add {a b : ℚ} (ha : IsTwentieth a) (hb : IsTwentieth b) :
    IsTwentieth (a + b) := by
  obtain ⟨n, hn⟩ := ha
  obtain ⟨m, hm⟩ := hb
  exact ⟨n + m, by push_cast [← hn, ← hm]; ring⟩

theorem isTwentieth_min {a b : ℚ} (ha : IsTwentieth a) (hb : IsTwentieth b) :
    IsTwentieth (min a b) := by
  rcases le_total a b with h | h
  · rwa [min_eq_left h]
  · rwa [min_eq_right h]

theorem isTwentieth_max {a b : ℚ} (ha : IsTwentieth a) (hb : IsTwentieth b) :
    IsTwentieth (max a b) := by
  rcases le_total a b with h | h
  · rwa [max_eq_right h]
  · rwa [max_eq_left h]

theorem roundTwo_eq_self {q : ℚ} (h : IsTwentieth q) : roundTwo q = q := by
  obtain ⟨n, hn⟩ := h
  have hq : q = (n : ℚ) / 20 := by
    field_simp at hn ⊢
    linarith
  have h100 : q * 100 = ((5 * n : ℤ) : ℚ) := by
    rw [hq]
    push_cast
    ring
  rw [roundTwo, jsRound, h100]
  rw [Int.floor_int_add]
  norm_num
  rw [hq]
  ring

theorem jsRound_mono {a b : ℚ} (h : a ≤ b) : jsRound a ≤ jsRound b :=
  Int.floor_le_floor (by linarith)

theorem roundTwo_mono {a b : ℚ} (h : a ≤ b) : roundTwo a ≤ roundTwo b := by
  have := jsRound_mono (show a * 100 ≤ b * 100 by linarith)
  rw [roundTwo, roundTwo]
  have hc : ((jsRound (a * 100) : ℤ) : ℚ) ≤ ((jsRound (b * 100) : ℤ) : ℚ) := by
    exact_mod_cast this
  linarith

theorem foldl_patWeights_half (l : List Char) (ps : List (PatSpec × ℚ))
    (hw : ∀ p ∈ ps, ∃ k : ℕ, p.2 * 2 = (k : ℚ)) :
    ∀ acc : ℚ, (∃ m : ℕ, acc * 2 = (m : ℚ)) →
    ∃ n : ℕ, (ps.foldl (fun a pw => a + (patCount pw.1 l : ℚ) * pw.2) acc) * 2 = (n : ℚ) := by
  induction ps with
  | nil => intro acc hacc; simpa using hacc
  | cons p ps ih =>
    rintro acc ⟨m, hm⟩
    obtain ⟨k, hk⟩ := hw p (by simp)
    simp only [List.foldl_cons]
    refine ih (fun q hq => hw q (by simp [hq])) _ ⟨m + patCount p.1 l * k, ?_⟩
    have hsplit : (acc + (patCount p.1 l : ℚ) * p.2) * 2
        = acc * 2 + (patCount p.1 l : ℚ) * (p.2 * 2) := by ring
    rw [hsplit, hm, hk]
    push_cast
    ring

theorem complexPatterns_weights_half :
    ∀ p ∈ complexPatterns, ∃ k : ℕ, p.2 * 2 = (k : ℚ) := by
  intro p hp
  simp only [complexPatterns] at hp
  fin_cases hp <;>
    first
      | (refine ⟨6, ?_⟩; norm_num; done)
      | (refine ⟨4, ?_⟩; norm_num; done)
      | (refine ⟨2, ?_⟩; norm_num; done)
      | (refine ⟨1, ?_⟩; norm_num; done)

theorem lineComplexity_half (l : List Char) :
    ∃ n : ℕ, lineComplexity l * 2 = (n : ℚ) :=
  foldl_patWeights_half l complexPatterns complexPatterns_weights_half 0 ⟨0, by norm_num⟩

theorem diffLines_foldl_half (lines : List (List Char)) :
    ∀ acc : ℚ, (∃ m : ℕ, acc * 2 = (m : ℚ)) →
    ∃ n : ℕ,
      (lines.foldl (fun acc line =>
        if (['+']).isPrefixOf line && !(['+', '+', '+']).isPrefixOf line then
          acc + lineComplexity (line.drop 1)
        else acc) acc) * 2 = (n : ℚ) := by
  induction lines with
  | nil => intro acc hacc; simpa using hacc
  | cons line lines ih =>
    rintro acc ⟨m, hm⟩
    simp only [List.foldl_cons]
    by_cases hc : ((['+']).isPrefixOf line && !(['+', '+', '+']).isPrefixOf line) = true
    · rw [if_pos hc]
      obtain ⟨k, hk⟩ := lineComplexity_half (line.drop 1)
      refine ih _ ⟨m + k, ?_⟩
      have hsplit : (acc + lineComplexity (line.drop 1)) * 2
          = acc * 2 + lineComplexity (line.drop 1) * 2 := by ring
      rw [hsplit, hm, hk]
      push_cast
      ring
    · rw [if_neg hc]
      exact ih _ ⟨m, hm⟩

theorem addedLinesComplexity_half (diff : String) :
    ∃ n : ℕ, addedLinesComplexity diff * 2 = (n : ℚ) :=
  diffLines_foldl_half (splitLines diff.data) 0 ⟨0, by norm_num⟩

theorem analyzeCodeComplexity_isTwentieth (diff : String) :
    IsTwentieth (analyzeCodeComplexity diff) := by
  rw [analyzeCodeComplexity]
  obtain ⟨n, hn⟩ := addedLinesComplexity_half diff
  refine isTwentieth_min ⟨(n : ℤ), ?_⟩ ⟨300, by norm_num⟩
  push_cast
  linarith [hn]

theorem calculateBaseComplexity_isTwentieth (c : GitContribution) :
    IsTwentieth (calculateBaseComplexity c) := by
  rw [calculateBaseComplexity]
  refine isTwentieth_min (isTwentieth_add (isTwentieth_add (isTwentieth_add ?_ ?_) ?_) ?_)
    ⟨600, by norm_num⟩
  · exact isTwentieth_min ⟨2 * c.linesChanged, by push_cast; ring⟩ ⟨400, by norm_num⟩
  · exact isTwentieth_min ⟨40 * countModifiedFiles c.diff, by push_cast; ring⟩ ⟨300, by norm_num⟩
  · exact isTwentieth_min ⟨30 * c.commits.length, by push_cast; ring⟩ ⟨200, by norm_num⟩
  · exact analyzeCodeComplexity_isTwentieth c.diff

theorem hintFold_eq (hs : List Hint) :
    ∀ acc : ℚ, hs.foldl (fun acc h => acc + hintTypeWeight h.type + (h.level : ℚ) * 2) acc
      = acc + (hs.map (fun h => hintTypeWeight h.type + (h.level : ℚ) * 2)).sum := by
  induction hs with
  | nil => intro acc; simp
  | cons h hs ih =>
    intro acc
    simp only [List.foldl_cons, List.map_cons, List.sum_cons, ih]
    ring

theorem hintTerm_nonneg (h : Hint) : 0 ≤ hintTypeWeight h.type + (h.level : ℚ) * 2 := by
  have h1 : 0 ≤ hintTypeWeight h.type := by
    cases hh : h.type <;> norm_num [hintTypeWeight]
  positivity

theorem hintSum_nonneg (hs : List Hint) :
    0 ≤ (hs.map (fun h => hintTypeWeight h.type + (h.level : ℚ) * 2)).sum := by
  refine List.sum_nonneg ?_
  intro x hx
  obtain ⟨h, _, rfl⟩ := List.mem_map.mp hx
  exact hintTerm_nonneg h

/-- C4: the hint penalty equals the sum over the hints of the category
weight (five for general, ten for specific, fifteen for technical) plus
twice the level, clamped to the range 0 to 50 (the lower clamp never bites
because every summand is nonnegative). -/
theorem hint_penalty_is_clamped_weighted_sum :
    (∀ hs : List Hint, calculateHintComplexity hs
      = min (max ((hs.map (fun h => hintTypeWeight h.type + 2 * (h.level : ℚ))).sum) 0) 50)
    ∧ hintTypeWeight .general = 5 ∧ hintTypeWeight .specific = 10
    ∧ hintTypeWeight .technical = 15 := by
  refine ⟨?_, rfl, rfl, rfl⟩
  intro hs
  have hmap : (hs.map (fun h => hintTypeWeight h.type + 2 * (h.level : ℚ)))
      = hs.map (fun h => hintTypeWeight h.type + (h.level : ℚ) * 2) := by
    simp only [List.map_inj_left]
    intro h _
    ring
  rw [calculateHintComplexity, hintFold_eq, hmap, zero_add,
    max_eq_left (hintSum_nonneg hs)]

/-- C9: a failed oracle call makes compareFunctionality return the
conservative fallback verdict: not equivalent, score 0.3 (which is below
the default threshold 0.85), and exactly one generic unresolved gap, so a
hint can still be generated from a nonempty gap list. -/
theorem oracle_failure_yields_fallback :
    compareFunctionality none = createFallbackComparison
    ∧ (compareFunctionality none).isEquivalent = false
    ∧ (compareFunctionality none).similarityScore = 3/10
    ∧ (compareFunctionality none).similarityScore < defaultSimilarityThreshold
    ∧ (compareFunctionality none).gaps.length = 1
    ∧ (compareFunctionality none).gaps ≠ [] := by
  refine ⟨rfl, rfl, rfl, ?_, rfl, ?_⟩
  · norm_num [compareFunctionality, createFallbackComparison, defaultSimilarityThreshold]
  · simp [compareFunctionality, createFallbackComparison]

/-- C5: a matched outcome on the first attempt with no hints scores the
clamp of base minus ten: the hint penalty and the difficulty bonus vanish,
the attempt adjustment is minus ten, and the two-decimal rounding is the
identity on such values. -/
theorem matched_first_attempt_score (c : GitContribution) :
    scoreOutcome c [] 1 true = max 0 (min 100 (calculateBaseComplexity c - 10)) := by
  have h1 : calculateHintComplexity [] = 0 := by
    norm_num [calculateHintComplexity, min_def]
  have h2 : calculateAttemptPenalty 1 true = -10 := by
    norm_num [calculateAttemptPenalty]
  have h3 : calculateDifficultyBonus 0 1 true = 0 := by
    norm_num [calculateDifficultyBonus, min_def]
  rw [scoreOutcome, calculateComplexityScore]
  simp only [List.length_nil, h1, h2, h3]
  rw [show calculateBaseComplexity c + 0 + -10 + 0 = calculateBaseComplexity c - 10 by ring]
  refine roundTwo_eq_self (isTwentieth_max ⟨0, by norm_num⟩
    (isTwentieth_min ⟨2000, by norm_num⟩ ?_))
  rw [sub_eq_add_neg]
  exact isTwentieth_add (calculateBaseComplexity_isTwentieth c)
    (⟨-200, by norm_num⟩ : IsTwentieth (-10))

theorem contribFifty_base : calculateBaseComplexity contribFifty = 5 := by
  have hfiles : countModifiedFiles ("") = 0 := rfl
  have hlines : addedLinesComplexity ("") = 0 := rfl
  rw [calculateBaseComplexity]
  simp only [contribFifty, analyzeCodeComplexity, hfiles, hlines]
  norm_num [min_def]

/-- C1 counterexample: a change whose base complexity is exactly five,
scored unmatched with ten attempts and ten level-five technical hints,
yields 90, not 100: the components are 5 + 50 + 20 + 15. -/
theorem saturation_counterexample :
    5 ≤ calculateBaseComplexity contribFifty
    ∧ scoreOutcome contribFifty tenTechnicalHints 10 false ≠ 100 := by
  have hh : calculateHintComplexity tenTechnicalHints = 50 := by
    norm_num [calculateHintComplexity, tenTechnicalHints, techFiveHint, hintTypeWeight,
      List.foldl_cons, List.foldl_nil, min_def]
  have hscore : scoreOutcome contribFifty tenTechnicalHints 10 false = 90 := by
    rw [scoreOutcome, calculateComplexityScore, contribFifty_base, hh]
    norm_num [calculateAttemptPenalty, calculateDifficultyBonus, roundTwo, jsRound,
      min_def, max_def, tenTechnicalHints]
  refine ⟨by rw [contribFifty_base], by rw [hscore]; norm_num⟩

/-- C1 as amended: with ten level-five technical hints, ten attempts and no
match, the score is the minimum of base plus 85 and 100 (the hint penalty
saturates at 50, the attempt adjustment is 20, the difficulty bonus 15); it
reaches 100 only when the base component is at least 15, while any base of
at least 5 merely guarantees a score of at least 90. -/
theorem unmatched_ten_technical_hints_score (c : GitContribution) (hs : List Hint)
    (hlen : hs.length = 10)
    (hall : ∀ h ∈ hs, h.type = HintType.technical ∧ h.level = 5)
    (hbase : 5 ≤ calculateBaseComplexity c) :
    scoreOutcome c hs 10 false = min (calculateBaseComplexity c + 85) 100 := by
  have hh : calculateHintComplexity hs = 50 := by
    rw [calculateHintComplexity, hintFold_eq, zero_add]
    have hsum : (hs.map (fun h => hintTypeWeight h.type + (h.level : ℚ) * 2)).sum = 250 := by
      rw [List.sum_eq_card_nsmul _ (25 : ℚ) ?_]
      · rw [List.length_map, hlen]
        norm_num
      · intro x hx
        obtain ⟨h, hmem, rfl⟩ := List.mem_map.mp hx
        obtain ⟨ht, hl⟩ := hall h hmem
        rw [ht, hl]
        norm_num [hintTypeWeight]
    rw [hsum]
    norm_num [min_def]
  have hpen : calculateAttemptPenalty 10 false = 20 := by
    norm_num [calculateAttemptPenalty]
  have hbon : calculateDifficultyBonus 10 10 false = 15 := by
    norm_num [calculateDifficultyBonus]
  rw [scoreOutcome, calculateComplexityScore, hlen, hh, hpen, hbon]
  rw [show calculateBaseComplexity c + 50 + 20 + 15 = calculateBaseComplexity c + 85 by ring]
  have h90 : (0:ℚ) ≤ min 100 (calculateBaseComplexity c + 85) :=
    le_min (by norm_num) (by linarith)
  rw [max_eq_right h90]
  rw [roundTwo_eq_self (isTwentieth_min ⟨2000, by norm_num⟩
    (isTwentieth_add (calculateBaseComplexity_isTwentieth c) ⟨1700, by norm_num⟩))]
  rw [min_comm]

theorem unmatched_ten_technical_hints_score_witness :
    scoreOutcome contribFifty tenTechnicalHints 10 false
      = min (calculateBaseComplexity contribFifty + 85) 100 := by
  refine unmatched_ten_technical_hints_score contribFifty tenTechnicalHints rfl ?_ ?_
  · intro h hmem
    have he : h = techFiveHint := by
      simpa [tenTechnicalHints] using hmem
    rw [he]
    exact ⟨rfl, rfl⟩
  · rw [contribFifty_base]

theorem difficultyBonus_mono {h1 h2 : ℕ} (hle : h1 ≤ h2) (attempts : ℕ) (m : Bool) :
    calculateDifficultyBonus h1 attempts m ≤ calculateDifficultyBonus h2 attempts m := by
  cases m with
  | false => simp [calculateDifficultyBonus]
  | true =>
    rw [calculateDifficultyBonus, calculateDifficultyBonus]
    simp only [if_neg (by simp : ¬(true = false))]
    have hcast : (h1 : ℚ) ≤ (h2 : ℚ) := by exact_mod_cast hle
    refine add_le_add (add_le_add ?_ le_rfl) ?_
    · exact min_le_min (by linarith) le_rfl
    · split_ifs <;> first
        | (norm_num; done)
        | (exfalso; omega)

/-- C6: extending the hint list (same change, same attempts, same matched
flag) never lowers the score: the hint penalty and the difficulty bonus are
monotone in the hints, and clamping and rounding preserve order. -/
theorem score_monotone_in_hints (c : GitContribution) (attempts : ℕ) (matched : Bool)
    (hs ex : List Hint) :
    scoreOutcome c hs attempts matched ≤ scoreOutcome c (hs ++ ex) attempts matched := by
  have hhint : calculateHintComplexity hs ≤ calculateHintComplexity (hs ++ ex) := by
    rw [calculateHintComplexity, calculateHintComplexity, hintFold_eq, hintFold_eq,
      zero_add, zero_add, List.map_append, List.sum_append]
    exact min_le_min (le_add_of_nonneg_right (hintSum_nonneg ex)) le_rfl
  have hbon : calculateDifficultyBonus hs.length attempts matched
      ≤ calculateDifficultyBonus (hs ++ ex).length attempts matched :=
    difficultyBonus_mono (by simp) attempts matched
  rw [scoreOutcome, scoreOutcome, calculateComplexityScore, calculateComplexityScore]
  refine roundTwo_mono (max_le_max le_rfl (min_le_min le_rfl ?_))
  exact add_le_add (add_le_add (add_le_add le_rfl hhint) le_rfl) hbon

theorem generateTechnicalHint_level (fs : List String) (lv : ℕ) (resp : Option String)
    (h : Hint) (hg : generateTechnicalHint fs lv resp = some h) : h.level = lv := by
  rw [generateTechnicalHint.eq_def] at hg
  by_cases hempty : fs.isEmpty = true
  · rw [if_pos hempty] at hg
    cases hg
  · rw [if_neg hempty] at hg
    simp only [Option.some.injEq] at hg
    cases resp with
    | some text =>
      rw [← hg]
      rfl
    | none =>
      rw [← hg]
      rfl

theorem loopBody_cases (θ : ℚ) (inp : RoundInput) (st : LoopState) :
    loopBody θ inp st = (⟨st.functionalityMatched, st.hintsGiven, st.attempts + 1⟩, false)
    ∨ loopBody θ inp st = (⟨true, st.hintsGiven, st.attempts + 1⟩, true)
    ∨ ∃ hnew : Hint, hnew.level = st.hintsGiven.length + 1
        ∧ loopBody θ inp st
          = (⟨st.functionalityMatched, st.hintsGiven ++ [hnew], st.attempts + 1⟩, true) := by
  simp only [loopBody]
  by_cases h1 : inp.raised = true
  · rw [if_pos h1]
    exact Or.inl rfl
  rw [if_neg h1]
  by_cases h2 : inp.aiSuccess = false
  · rw [if_pos h2]
    exact Or.inl rfl
  rw [if_neg h2]
  by_cases h3 : inp.comparison.isEquivalent = true ∨ θ ≤ inp.comparison.similarityScore
  · rw [if_pos h3]
    exact Or.inr (Or.inl rfl)
  rw [if_neg h3]
  cases hg : generateTechnicalHint inp.comparison.factorsThatMakeABetter
      (st.hintsGiven.length + 1) inp.hintResponse with
  | none => exact Or.inl rfl
  | some hnew =>
    exact Or.inr (Or.inr ⟨hnew, generateTechnicalHint_level _ _ _ _ hg, rfl⟩)

theorem loopGo_stop (θ : ℚ) (m : ℕ) (env : ℕ → RoundInput) (fuel : ℕ) (st : LoopState)
    (h : st.functionalityMatched = true ∨ m ≤ st.attempts) :
    loopGo θ m env fuel st = st := by
  cases fuel with
  | zero => rfl
  | succ fuel =>
    simp only [loopGo]
    rw [if_pos h]

theorem loopGo_cont (θ : ℚ) (m : ℕ) (env : ℕ → RoundInput) (fuel : ℕ) (st st2 : LoopState)
    (hstop : ¬(st.functionalityMatched = true ∨ m ≤ st.attempts))
    (hb : loopBody θ (env st.attempts) st = (st2, true)) :
    loopGo θ m env (fuel + 1) st = loopGo θ m env fuel st2 := by
  simp only [loopGo]
  rw [if_neg hstop, hb]
  rfl

theorem loopGo_break (θ : ℚ) (m : ℕ) (env : ℕ → RoundInput) (fuel : ℕ) (st st2 : LoopState)
    (hstop : ¬(st.functionalityMatched = true ∨ m ≤ st.attempts))
    (hb : loopBody θ (env st.attempts) st = (st2, false)) :
    loopGo θ m env (fuel + 1) st = st2 := by
  simp only [loopGo]
  rw [if_neg hstop, hb]
  rfl

theorem loopGo_hints_attempts (θ : ℚ) (m : ℕ) (env : ℕ → RoundInput) :
    ∀ (fuel : ℕ) (st : LoopState),
    (st.functionalityMatched = false → st.hintsGiven.length = st.attempts) →
    (st.functionalityMatched = true → st.hintsGiven.length + 1 = st.attempts) →
    ((loopGo θ m env fuel st).hintsGiven.length ≤ (loopGo θ m env fuel st).attempts
      ∧ ((loopGo θ m env fuel st).functionalityMatched = true →
        (loopGo θ m env fuel st).hintsGiven.length + 1 = (loopGo θ m env fuel st).attempts)) := by
  intro fuel
  induction fuel with
  | zero =>
    intro st hf ht
    simp only [loopGo]
    cases hm : st.functionalityMatched
    · exact ⟨le_of_eq (hf hm), fun hc => absurd hc (by simp)⟩
    · exact ⟨by have := ht hm; omega, fun _ => ht hm⟩
  | succ fuel ih =>
    intro st hf ht
    by_cases hstop : st.functionalityMatched = true ∨ m ≤ st.attempts
    · rw [loopGo_stop θ m env _ st hstop]
      cases hm : st.functionalityMatched
      · exact ⟨le_of_eq (hf hm), fun hc => absurd hc (by simp)⟩
      · exact ⟨by have := ht hm; omega, fun _ => ht hm⟩
    · have hm : st.functionalityMatched = false := by
        cases h : st.functionalityMatched
        · rfl
        · exact absurd (Or.inl h) hstop
      have hlen := hf hm
      rcases loopBody_cases θ (env st.attempts) st with hb | hb | ⟨hnew, _, hb⟩
      · rw [loopGo_break θ m env fuel st _ hstop hb]
        refine ⟨by simp only; omega, ?_⟩
        intro hc
        simp only at hc
        exact absurd (hm ▸ hc) (by simp)
      · rw [loopGo_cont θ m env fuel st _ hstop hb]
        refine ih _ (fun h => by simp at h) (fun _ => by simp only; omega)
      · rw [loopGo_cont θ m env fuel st _ hstop hb]
        refine ih _ (fun _ => by simp only [List.length_append]; simp; omega) ?_
        intro hc
        simp only at hc
        exact absurd (hm ▸ hc) (by simp)

theorem loopGo_attempts_le (θ : ℚ) (m : ℕ) (env : ℕ → RoundInput) :
    ∀ (fuel : ℕ) (st : LoopState), st.attempts ≤ m →
    (loopGo θ m env fuel st).attempts ≤ m := by
  intro fuel
  induction fuel with
  | zero =>
    intro st hle
    simp only [loopGo]
    exact hle
  | succ fuel ih =>
    intro st hle
    by_cases hstop : st.functionalityMatched = true ∨ m ≤ st.attempts
    · rw [loopGo_stop θ m env _ st hstop]
      exact hle
    · have ha : st.attempts < m := by
        rcases Nat.lt_or_ge st.attempts m with h | h
        · exact h
        · exact absurd (Or.inr h) hstop
      rcases loopBody_cases θ (env st.attempts) st with hb | hb | ⟨hnew, _, hb⟩
      · rw [loopGo_break θ m env fuel st _ hstop hb]
        simp only
        omega
      · rw [loopGo_cont θ m env fuel st _ hstop hb]
        exact ih _ (by simp only; omega)
      · rw [loopGo_cont θ m env fuel st _ hstop hb]
        exact ih _ (by simp only; omega)

theorem loopGo_levels (θ : ℚ) (m : ℕ) (env : ℕ → RoundInput) :
    ∀ (fuel : ℕ) (st : LoopState),
    st.hintsGiven.map Hint.level = (List.range st.hintsGiven.length).map (fun i => i + 1) →
    (loopGo θ m env fuel st).hintsGiven.map Hint.level
      = (List.range (loopGo θ m env fuel st).hintsGiven.length).map (fun i => i + 1) := by
  intro fuel
  induction fuel with
  | zero =>
    intro st hst
    simp only [loopGo]
    exact hst
  | succ fuel ih =>
    intro st hst
    by_cases hstop : st.functionalityMatched = true ∨ m ≤ st.attempts
    · rw [loopGo_stop θ m env _ st hstop]
      exact hst
    · rcases loopBody_cases θ (env st.attempts) st with hb | hb | ⟨hnew, hlv, hb⟩
      · rw [loopGo_break θ m env fuel st _ hstop hb]
        exact hst
      · rw [loopGo_cont θ m env fuel st _ hstop hb]
        exact ih _ hst
      · rw [loopGo_cont θ m env fuel st _ hstop hb]
        refine ih _ ?_
        simp only [List.map_append, List.length_append, List.map_cons, List.map_nil, hst, hlv]
        rw [show st.hintsGiven.length + [hnew].length = st.hintsGiven.length + 1 by simp,
          List.range_succ]
        simp

/-- C2 as amended: at loop termination the number of hints is at most the
number of attempts (a hint can be appended in the very round that exhausts
the budget, so attempts minus one is not an upper bound), and when the loop
ends matched the hint count is exactly attempts minus one. -/
theorem hints_at_most_attempts (θ : ℚ) (m : ℕ) (env : ℕ → RoundInput) :
    (analyzeLoop θ m env).hintsGiven.length ≤ (analyzeLoop θ m env).attempts
    ∧ ((analyzeLoop θ m env).functionalityMatched = true →
      (analyzeLoop θ m env).hintsGiven.length + 1 = (analyzeLoop θ m env).attempts) :=
  loopGo_hints_attempts θ m env m initialLoopState (fun _ => rfl)
    (fun h => by simp [initialLoopState] at h)

theorem hints_at_most_attempts_witness :
    (analyzeLoop defaultSimilarityThreshold 10 envMatch).hintsGiven.length
      ≤ (analyzeLoop defaultSimilarityThreshold 10 envMatch).attempts
    ∧ (analyzeLoop defaultSimilarityThreshold 10 envMatch).hintsGiven.length + 1
      = (analyzeLoop defaultSimilarityThreshold 10 envMatch).attempts := by
  have hb : loopBody defaultSimilarityThreshold (envMatch 0) initialLoopState
      = (⟨true, [], 1⟩, true) := by
    rw [loopBody, envMatch]
    norm_num [initialLoopState]
  have hrun : analyzeLoop defaultSimilarityThreshold 10 envMatch = ⟨true, [], 1⟩ := by
    rw [analyzeLoop, show (10:ℕ) = 9 + 1 from rfl,
      loopGo_cont defaultSimilarityThreshold 10 envMatch 9 initialLoopState ⟨true, [], 1⟩
        (by simp [initialLoopState]) hb]
    exact loopGo_stop _ _ _ _ _ (Or.inl rfl)
  refine ⟨(hints_at_most_attempts _ _ _).1,
    (hints_at_most_attempts _ _ _).2 (by rw [hrun])⟩

theorem loopGo_allPush_len (θ : ℚ) (env : ℕ → RoundInput) (m : ℕ)
    (hpush : ∀ st : LoopState, st.functionalityMatched = false → st.attempts < m →
      ∃ hnew : Hint, loopBody θ (env st.attempts) st
        = (⟨st.functionalityMatched, st.hintsGiven ++ [hnew], st.attempts + 1⟩, true)) :
    ∀ (fuel : ℕ) (st : LoopState), st.functionalityMatched = false →
      (loopGo θ m env fuel st).hintsGiven.length
        = st.hintsGiven.length + min fuel (m - st.attempts) := by
  intro fuel
  induction fuel with
  | zero =>
    intro st _
    simp only [loopGo]
    omega
  | succ fuel ih =>
    intro st hm
    by_cases hstop : st.functionalityMatched = true ∨ m ≤ st.attempts
    · rw [loopGo_stop θ m env _ st hstop]
      rcases hstop with h | h
      · exact absurd h (by rw [hm]; simp)
      · have : m - st.attempts = 0 := by omega
        rw [this]
        omega
    · have ha : st.attempts < m := by
        rcases Nat.lt_or_ge st.attempts m with h | h
        · exact h
        · exact absurd (Or.inr h) hstop
      obtain ⟨hnew, hb⟩ := hpush st hm ha
      rw [loopGo_cont θ m env fuel st _ hstop hb]
      rw [ih ⟨st.functionalityMatched, st.hintsGiven ++ [hnew], st.attempts + 1⟩ hm]
      simp only [List.length_append, List.length_cons, List.length_nil]
      omega

theorem envAllMiss_pushes (m : ℕ) :
    ∀ st : LoopState, st.functionalityMatched = false → st.attempts < m →
      ∃ hnew : Hint, loopBody defaultSimilarityThreshold (envAllMiss st.attempts) st
        = (⟨st.functionalityMatched, st.hintsGiven ++ [hnew], st.attempts + 1⟩, true) := by
  intro st _ _
  refine ⟨parseHint ("") (st.hintsGiven.length + 1), ?_⟩
  rw [loopBody, envAllMiss]
  rw [if_neg (by simp), if_neg (by simp)]
  rw [if_neg (by norm_num [defaultSimilarityThreshold])]
  rw [show generateTechnicalHint [("better error handling")] (st.hintsGiven.length + 1)
      (some ("")) = some (parseHint ("") (st.hintsGiven.length + 1)) from rfl]

/-- C2 counterexample: with an attempt budget of one and a first attempt
whose candidate is judged inferior but not matching, the loop appends a
hint in that same round and terminates with one hint and one attempt, so
hints.length equals the attempt count instead of staying strictly below
it. -/
theorem hint_appended_on_last_attempt_counterexample :
    ¬ ((analyzeLoop defaultSimilarityThreshold 1 envAllMiss).hintsGiven.length
      ≤ (analyzeLoop defaultSimilarityThreshold 1 envAllMiss).attempts - 1) := by
  have hlen : (analyzeLoop defaultSimilarityThreshold 1 envAllMiss).hintsGiven.length = 1 := by
    rw [analyzeLoop, loopGo_allPush_len defaultSimilarityThreshold envAllMiss 1
      (envAllMiss_pushes 1) 1 initialLoopState rfl]
    rfl
  have hatt : (analyzeLoop defaultSimilarityThreshold 1 envAllMiss).attempts ≤ 1 :=
    loopGo_attempts_le defaultSimilarityThreshold 1 envAllMiss 1 initialLoopState
      (by simp [initialLoopState])
  have hha := (hints_at_most_attempts defaultSimilarityThreshold 1 envAllMiss).1
  omega

/-- C3 as amended: hint levels are not capped at five: the i-th hint of a
task carries level i plus one (the level passed to the generator is the
current hint count plus one), so levels grow one, two, three and so on,
bounded only by the attempt budget, which also bounds the number of
hints. -/
theorem hint_levels_consecutive (θ : ℚ) (m : ℕ) (env : ℕ → RoundInput) :
    (analyzeLoop θ m env).hintsGiven.map Hint.level
      = (List.range (analyzeLoop θ m env).hintsGiven.length).map (fun i => i + 1)
    ∧ (analyzeLoop θ m env).hintsGiven.length ≤ m := by
  constructor
  · exact loopGo_levels θ m env m initialLoopState (by simp [initialLoopState])
  · have h1 := (loopGo_hints_attempts θ m env m initialLoopState (fun _ => rfl)
      (fun h => by simp [initialLoopState] at h)).1
    have h2 := loopGo_attempts_le θ m env m initialLoopState (by simp [initialLoopState])
    exact le_trans h1 h2

/-- C3 counterexample: under the default configuration (threshold 0.85,
ten attempts) a run of ten non-matching rounds issues hints of levels one
through ten, so some issued hint has level strictly greater than five. -/
theorem hint_level_exceeds_five_counterexample :
    ∃ h ∈ (analyzeLoop defaultSimilarityThreshold 10 envAllMiss).hintsGiven, 5 < h.level := by
  have hlen : (analyzeLoop defaultSimilarityThreshold 10 envAllMiss).hintsGiven.length = 10 := by
    rw [analyzeLoop, loopGo_allPush_len defaultSimilarityThreshold envAllMiss 10
      (envAllMiss_pushes 10) 10 initialLoopState rfl]
    rfl
  have hlv := loopGo_levels defaultSimilarityThreshold 10 envAllMiss 10 initialLoopState
    (by simp [initialLoopState])
  rw [analyzeLoop] at hlen ⊢
  have hmem : (6 : ℕ) ∈ (loopGo defaultSimilarityThreshold 10 envAllMiss 10
      initialLoopState).hintsGiven.map Hint.level := by
    rw [hlv, hlen]
    decide
  obtain ⟨h, hm, he⟩ := List.mem_map.mp hmem
  exact ⟨h, hm, by omega⟩

/-- C8: in any round where no exception is raised, the agent run succeeds,
the verdict is not a match (not equivalent and below threshold) and the
oracle reports no factor making the human reference better,
generateTechnicalHint returns null and the loop breaks at once: the run
ends with functionalityMatched still false, the hint list unchanged, and
only the attempt counter advanced by that round. -/
theorem agent_superior_round_terminates (θ : ℚ) (m : ℕ) (env : ℕ → RoundInput)
    (fuel : ℕ) (st : LoopState)
    (hm : st.functionalityMatched = false) (ha : st.attempts < m)
    (hr : (env st.attempts).raised = false)
    (hs : (env st.attempts).aiSuccess = true)
    (he : (env st.attempts).comparison.isEquivalent = false)
    (hsc : (env st.attempts).comparison.similarityScore < θ)
    (hw : (env st.attempts).comparison.factorsThatMakeABetter = []) :
    loopGo θ m env (fuel + 1) st = ⟨false, st.hintsGiven, st.attempts + 1⟩ := by
  have hb : loopBody θ (env st.attempts) st
      = (⟨st.functionalityMatched, st.hintsGiven, st.attempts + 1⟩, false) := by
    rw [loopBody]
    rw [if_neg (by rw [hr]; simp)]
    rw [if_neg (by rw [hs]; simp)]
    rw [if_neg ?mismatch]
    case mismatch =>
      rintro (hcontra | hcontra)
      · rw [he] at hcontra
        cases hcontra
      · exact absurd hcontra (not_le.mpr hsc)
    rw [hw]
    rfl
  rw [loopGo_break θ m env fuel st _ (by rw [hm]; simp; omega) hb, hm]

theorem agent_superior_round_terminates_witness :
    loopGo defaultSimilarityThreshold 10 envSuperior 10 initialLoopState
      = ⟨false, [], 1⟩ := by
  have h := agent_superior_round_terminates defaultSimilarityThreshold 10 envSuperior 9
    initialLoopState rfl (by norm_num [initialLoopState]) rfl rfl rfl
    (by norm_num [envSuperior, defaultSimilarityThreshold]) rfl
  exact h

theorem combinedWeights_tt_bounds (d : DeveloperDiscovery) (hc : 0 < d.totalCommits) :
    1/5 ≤ (combinedWeights true true d).1 ∧ (combinedWeights true true d).1 ≤ 4/5
    ∧ (combinedWeights true true d).1 + (combinedWeights true true d).2 = 1 := by
  have htot : (0:ℚ) < (d.totalCommits : ℚ) + (socialActivityOf d : ℚ) := by
    have h1 : (0:ℚ) < (d.totalCommits : ℚ) := by exact_mod_cast hc
    have h2 : (0:ℚ) ≤ (socialActivityOf d : ℚ) := by positivity
    linarith
  simp only [combinedWeights]
  rw [if_neg (by simp), if_neg (by simp), if_pos (by simp), if_pos htot]
  refine ⟨le_max_left _ _, max_le (by norm_num) (min_le_left _ _), by ring⟩

/-- C7: the score combiner follows the three-case rule.  With neither
dimension carrying data the combined score is zero at confidence 0.1; with
only technical data the technical weight is one at confidence 0.6; with
both, confidence is 0.9 and the reported technical weight is clamped into
the interval from 0.2 to 0.8 while the derived weights sum to one — in
particular at activity volumes code 10 and social 90 the technical weight
stays at least 0.2. -/
theorem combined_score_three_cases :
    (∀ d : DeveloperDiscovery,
      (calculateCombinedScore none none d).combined.score = 0
      ∧ (calculateCombinedScore none none d).combined.confidence = 1/10)
    ∧ (∀ (ta : TechnicalAnalysis) (d : DeveloperDiscovery), 0 < d.totalCommits →
      (calculateCombinedScore (some ta) none d).combined.breakdown.technicalWeight = 1
      ∧ (calculateCombinedScore (some ta) none d).combined.confidence = 6/10)
    ∧ (∀ (ta : TechnicalAnalysis) (rep : GitHubReport) (d : DeveloperDiscovery),
        0 < d.totalCommits → 0 < socialActivityOf d →
      (calculateCombinedScore (some ta) (some rep) d).combined.confidence = 9/10
      ∧ 1/5 ≤ (calculateCombinedScore (some ta) (some rep) d).combined.breakdown.technicalWeight
      ∧ (calculateCombinedScore (some ta) (some rep) d).combined.breakdown.technicalWeight ≤ 4/5
      ∧ (combinedWeights true true d).1 + (combinedWeights true true d).2 = 1)
    ∧ (∀ (ta : TechnicalAnalysis) (rep : GitHubReport), 1/5 ≤
      (calculateCombinedScore (some ta) (some rep) discoveryTenNinety).combined.breakdown.technicalWeight) := by
  refine ⟨?_, ?_, ?_, ?_⟩
  · intro d
    simp only [calculateCombinedScore, combinedWeights, Option.isSome_none, Bool.false_and]
    norm_num [roundOne, jsRound]
  · intro ta d hc
    have hdec : decide (0 < d.totalCommits) = true := decide_eq_true hc
    simp only [calculateCombinedScore, combinedWeights, Option.isSome_some, Option.isSome_none,
      Bool.true_and, Bool.false_and, hdec]
    norm_num [roundTwo, jsRound]
  · intro ta rep d hc hsoc
    have hdec : decide (0 < d.totalCommits) = true := decide_eq_true hc
    have hdec2 : decide (0 < socialActivityOf d) = true := decide_eq_true hsoc
    obtain ⟨hlo, hhi, hsum⟩ := combinedWeights_tt_bounds d hc
    have hw1 : roundTwo (1/5) = 1/5 := roundTwo_eq_self ⟨4, by norm_num⟩
    have hw2 : roundTwo (4/5) = 4/5 := roundTwo_eq_self ⟨16, by norm_num⟩
    have hbd : (calculateCombinedScore (some ta) (some rep) d).combined.breakdown.technicalWeight
        = roundTwo (combinedWeights true true d).1 := by
      simp only [calculateCombinedScore, Option.isSome_some, Bool.true_and, hdec, hdec2]
    refine ⟨?_, ?_, ?_, hsum⟩
    · simp only [calculateCombinedScore, Option.isSome_some, Bool.true_and, hdec, hdec2]
      norm_num
    · rw [hbd, ← hw1]
      exact roundTwo_mono hlo
    · rw [hbd, ← hw2]
      exact roundTwo_mono hhi
  · intro ta rep
    have hc : 0 < discoveryTenNinety.totalCommits := by norm_num [discoveryTenNinety]
    have hsoc : 0 < socialActivityOf discoveryTenNinety := by
      norm_num [discoveryTenNinety, socialActivityOf]
    have hdec : decide (0 < discoveryTenNinety.totalCommits) = true := decide_eq_true hc
    have hdec2 : decide (0 < socialActivityOf discoveryTenNinety) = true := decide_eq_true hsoc
    have hbd : (calculateCombinedScore (some ta) (some rep)
          discoveryTenNinety).combined.breakdown.technicalWeight
        = roundTwo (combinedWeights true true discoveryTenNinety).1 := by
      simp only [calculateCombinedScore, Option.isSome_some, Bool.true_and, hdec, hdec2]
    have hcw : (combinedWeights true true discoveryTenNinety).1 = 1/5 := by
      simp only [combinedWeights, discoveryTenNinety, socialActivityOf]
      norm_num [min_def, max_def]
    rw [hbd, hcw, roundTwo_eq_self ⟨4, by norm_num⟩]

theorem combined_score_three_cases_witness :
    ((calculateCombinedScore none none discoveryEmpty).combined.score = 0
      ∧ (calculateCombinedScore none none discoveryEmpty).combined.confidence = 1/10)
    ∧ ((calculateCombinedScore (some techFifty) none
          discoveryCodeOnly).combined.breakdown.technicalWeight = 1
      ∧ (calculateCombinedScore (some techFifty) none discoveryCodeOnly).combined.confidence = 6/10)
    ∧ (calculateCombinedScore (some techFifty) (some socialOne)
        discoveryTenNinety).combined.confidence = 9/10
    ∧ 1/5 ≤ (calculateCombinedScore (some techFifty) (some socialOne)
        discoveryTenNinety).combined.breakdown.technicalWeight := by
  obtain ⟨p1, p2, p3, p4⟩ := combined_score_three_cases
  exact ⟨p1 discoveryEmpty,
    p2 techFifty discoveryCodeOnly (by norm_num [discoveryCodeOnly]),
    (p3 techFifty socialOne discoveryTenNinety (by norm_num [discoveryTenNinety])
      (by norm_num [discoveryTenNinety, socialActivityOf])).1,
    p4 techFifty socialOne⟩

theorem parsedScoreInRange_bounds (t : List Char) (q : ℚ)
    (h : parsedScoreInRange t = some q) : 0 ≤ q ∧ q ≤ 1 := by
  rw [parsedScoreInRange] at h
  split at h
  · split_ifs at h with hb
    simp only [Option.some.injEq] at h
    rw [← h]
    exact hb
  · cases h

theorem parseLine_effects (st : ParseState) (l : List Char) :
    ((0 ≤ st.similarityScore → st.similarityScore ≤ 1 →
      0 ≤ (parseLine st l).similarityScore ∧ (parseLine st l).similarityScore ≤ 1)
    ∧ (scoreCarrier l = false → (parseLine st l).similarityScore = st.similarityScore))
    ∧ ((parseLine st l).isEquivalent = true →
      st.isEquivalent = true ∨ equivTrueLine l = true) := by
  rw [parseLine]
  by_cases h1 : ("EQUIVALENT:").data.isPrefixOf l = true
  · rw [if_pos h1]
    refine ⟨⟨fun h0 hle => ⟨h0, hle⟩, fun _ => rfl⟩, fun he => Or.inr ?_⟩
    rw [equivTrueLine, Bool.and_eq_true]
    exact ⟨h1, he⟩
  rw [if_neg h1]
  by_cases h2 : ("SIMILARITY_SCORE:").data.isPrefixOf l = true
  · rw [if_pos h2]
    cases hp : parsedScoreInRange (jsTrim (l.drop (("SIMILARITY_SCORE:").data.length))) with
    | none =>
      refine ⟨⟨fun h0 hle => ⟨h0, hle⟩, fun _ => rfl⟩, fun he => Or.inl he⟩
    | some q =>
      refine ⟨⟨fun _ _ => parsedScoreInRange_bounds _ _ hp, fun hcar => ?_⟩,
        fun he => Or.inl he⟩
      rw [scoreCarrier] at hcar
      rw [Bool.and_eq_false_iff] at hcar
      rcases hcar with hcar | hcar
      · exact absurd h2 (by rw [hcar]; simp)
      · rw [hp] at hcar
        cases hcar
  rw [if_neg h2]
  by_cases h3 : ("GAPS:").data.isPrefixOf l = true
  · rw [if_pos h3]
    exact ⟨⟨fun h0 hle => ⟨h0, hle⟩, fun _ => rfl⟩, fun he => Or.inl he⟩
  rw [if_neg h3]
  by_cases h4 : ("DIFFERENCES:").data.isPrefixOf l = true
  · rw [if_pos h4]
    exact ⟨⟨fun h0 hle => ⟨h0, hle⟩, fun _ => rfl⟩, fun he => Or.inl he⟩
  rw [if_neg h4]
  by_cases h5 : (("- ").data.isPrefixOf l && st.currentSection == ("gaps")) = true
  · rw [if_pos h5]
    by_cases h6 : (jsTrim (l.drop 2)).isEmpty = true
    · rw [if_pos h6]
      exact ⟨⟨fun h0 hle => ⟨h0, hle⟩, fun _ => rfl⟩, fun he => Or.inl he⟩
    · rw [if_neg h6]
      exact ⟨⟨fun h0 hle => ⟨h0, hle⟩, fun _ => rfl⟩, fun he => Or.inl he⟩
  rw [if_neg h5]
  by_cases h7 : (("- ").data.isPrefixOf l && st.currentSection == ("differences")) = true
  · rw [if_pos h7]
    by_cases h8 : (jsTrim (l.drop 2)).isEmpty = true
    · rw [if_pos h8]
      exact ⟨⟨fun h0 hle => ⟨h0, hle⟩, fun _ => rfl⟩, fun he => Or.inl he⟩
    · rw [if_neg h8]
      exact ⟨⟨fun h0 hle => ⟨h0, hle⟩, fun _ => rfl⟩, fun he => Or.inl he⟩
  rw [if_neg h7]
  exact ⟨⟨fun h0 hle => ⟨h0, hle⟩, fun _ => rfl⟩, fun he => Or.inl he⟩

theorem parseFold_bounds (lines : List (List Char)) :
    ∀ st : ParseState, 0 ≤ st.similarityScore → st.similarityScore ≤ 1 →
    0 ≤ (lines.foldl parseLine st).similarityScore
    ∧ (lines.foldl parseLine st).similarityScore ≤ 1 := by
  induction lines with
  | nil =>
    intro st h0 hle
    exact ⟨h0, hle⟩
  | cons l lines ih =>
    intro st h0 hle
    simp only [List.foldl_cons]
    obtain ⟨hb0, hble⟩ := (parseLine_effects st l).1.1 h0 hle
    exact ih _ hb0 hble

theorem parseFold_const (lines : List (List Char)) :
    ∀ st : ParseState, (∀ l ∈ lines, scoreCarrier l = false) →
    (lines.foldl parseLine st).similarityScore = st.similarityScore := by
  induction lines with
  | nil =>
    intro st _
    rfl
  | cons l lines ih =>
    intro st hall
    simp only [List.foldl_cons]
    rw [ih _ (fun x hx => hall x (by simp [hx]))]
    exact (parseLine_effects st l).1.2 (hall l (by simp))

theorem parseFold_equiv (lines : List (List Char)) :
    ∀ st : ParseState, (lines.foldl parseLine st).isEquivalent = true →
    st.isEquivalent = true ∨ ∃ l ∈ lines, equivTrueLine l = true := by
  induction lines with
  | nil =>
    intro st he
    exact Or.inl he
  | cons l lines ih =>
    intro st he
    simp only [List.foldl_cons] at he
    rcases ih _ he with hstep | ⟨x, hx, hex⟩
    · rcases (parseLine_effects st l).2 hstep with h | h
      · exact Or.inl h
      · exact Or.inr ⟨l, by simp, h⟩
    · exact Or.inr ⟨x, by simp [hx], hex⟩

/-- C10: the verdict parser is total with safe defaults: for every input
the similarity score lies between 0 and 1; when no trimmed line starting
with the score tag carries a parseable number in that range the score is
exactly one half; and the verdict is equivalent only when some trimmed
line starting with the equivalent tag has remainder true after trimming
and lowercasing. -/
theorem verdict_parse_total_safe (s : String) :
    (0 ≤ (parseComparisonResult s).similarityScore
      ∧ (parseComparisonResult s).similarityScore ≤ 1)
    ∧ ((∀ l ∈ (splitLines s.data).map jsTrim, scoreCarrier l = false) →
      (parseComparisonResult s).similarityScore = 1/2)
    ∧ ((parseComparisonResult s).isEquivalent = true →
      ∃ l ∈ (splitLines s.data).map jsTrim, equivTrueLine l = true) := by
  refine ⟨?_, ?_, ?_⟩
  · exact parseFold_bounds ((splitLines s.data).map jsTrim) ⟨false, 1/2, [], [], ("")⟩
      (by norm_num) (by norm_num)
  · intro hall
    exact parseFold_const ((splitLines s.data).map jsTrim) ⟨false, 1/2, [], [], ("")⟩ hall
  · intro he
    rcases parseFold_equiv ((splitLines s.data).map jsTrim) ⟨false, 1/2, [], [], ("")⟩ he with
      h | h
    · cases h
    · exact h

theorem verdict_parse_total_safe_witness :
    (parseComparisonResult ("EQUIVALENT: maybe")).similarityScore = 1/2 :=
  (verdict_parse_total_safe ("EQUIVALENT: maybe")).2.1 (by decide)

end Devscorer
